import Mathlib

/-!
# fhir-validator-cli-api: the two HTTP handlers and the output sanitizer

A shallow embedding of `handler/validate.go`.

* Go strings are byte strings (`GoString`).  Arguments, file names and header
  fields are text (`String`).
* `regexp.MustCompile` / `ReplaceAllString` are modelled by a small matcher for
  patterns made of literal bytes and starred byte classes, which is enough for
  the one pattern the program compiles.
* The handlers are functions from the results of the calls they make to the
  outside (`Env`) and the state before the request (`World`) to the state after
  it.  The state holds the temp files that exist, the list of calls made to the
  operating system, and the HTTP response.
-/

namespace Handler

/-! ## Data model -/

/-- A Go `string`: a sequence of bytes. -/
abbrev GoString := List UInt8

/-- The bytes (UTF-8) of a string literal of the source. -/
def str (s : String) : GoString := s.toUTF8.data.toList

/-- The struct `TestRequest` (validate.go, lines 21-24). -/
structure TestRequest where
  Payload : GoString
  Args : List String

/-! ## Package regexp (the part the program uses) -/

/-- One element of a pattern: a literal byte, or a byte class under a greedy star. -/
inductive Item where
  | lit (b : UInt8)
  | star (cls : UInt8 → Bool)

/-- A compiled pattern: the concatenation of its elements. -/
abbrev Regex := List Item

/-- Greedy `cls*` followed by the continuation `k`: take the longest run of bytes
of the class first, and give bytes back one at a time while `k` fails. -/
def starMatch (cls : UInt8 → Bool) (k : GoString → Option GoString) : GoString → Option GoString
  | [] => k []
  | c :: cs =>
    if cls c then
      match starMatch cls k cs with
      | some rest => some rest
      | none => k (c :: cs)
    else k (c :: cs)

/-- The preferred (leftmost-first) match of the pattern at the head of the input:
`some rest` when it matches, where `rest` is the input after the match. -/
def matchHere : Regex → GoString → Option GoString
  | [], s => some s
  | Item.lit b :: re, s =>
    match s with
    | c :: cs => if c = b then matchHere re cs else none
    | [] => none
  | Item.star cls :: re, s => starMatch cls (matchHere re) s

/-- The loop of `Regexp.ReplaceAllString`: at each position, a match is replaced
by `repl` and the scan goes on after it; a byte where no match starts is copied.
The first argument bounds the number of iterations.  Matches are taken to be
non-empty, which holds for every pattern that starts with a literal byte. -/
def replaceAllAux (re : Regex) (repl : GoString) : Nat → GoString → GoString
  | 0, s => s
  | _ + 1, [] => []
  | n + 1, c :: cs =>
    match matchHere re (c :: cs) with
    | some rest => repl ++ replaceAllAux re repl n rest
    | none => c :: replaceAllAux re repl n cs

/-- Go `re.ReplaceAllString(src, repl)` for a replacement without `$`. -/
def ReplaceAllString (re : Regex) (src repl : GoString) : GoString :=
  replaceAllAux re repl src.length src

/-! ## validate.go -/

/-- The class `[0-9;]`. -/
def isParamByte (b : UInt8) : Bool := (0x30 ≤ b && b ≤ 0x39) || b == 0x3b

/-- The pattern of `ansiRegex` (line 19): ESC, `[`, `[0-9;]*`, `m`. -/
def ansiRegex : Regex := [Item.lit 0x1b, Item.lit 0x5b, Item.star isParamByte, Item.lit 0x6d]

/-- The function `consoleOutputToPlainText` (lines 26-28). -/
def consoleOutputToPlainText (consoleOut : GoString) : GoString :=
  ReplaceAllString ansiRegex consoleOut []

/-! ### The outside world -/

/-- A call made by a handler to the operating system, with its arguments.  A call
is recorded whether it succeeds or fails. -/
inductive Effect where
  | createTemp (name : Option String)
  | copy (name : String)
  | write (name : String) (data : GoString)
  | close (name : String)
  | remove (name : String)
  | combinedOutput (argv : List String)
  | stdoutPipe
  | stderrPipe
  | start (argv : List String)
  deriving DecidableEq

/-- The HTTP response under construction (gin's `c.Writer`).  Server-sent events
are kept as (event name, data) pairs instead of their wire encoding. -/
structure Response where
  status : Nat
  headers : List (String × String)
  body : GoString
  events : List (String × GoString)
  deriving DecidableEq

/-- The state a handler acts on: the temp files that exist in the working
directory, the calls made so far, and the response. -/
structure World where
  files : List String
  calls : List Effect
  resp : Response
  deriving DecidableEq

/-- The results of the calls a handler makes to the outside, fixed for one
request.  An error is given by its text (`err.Error()`), `none` is `nil`. -/
structure Env where
  /-- Result of `c.ShouldBindJSON(&reqBody)`. -/
  bind : Except GoString TestRequest
  /-- Result of `os.CreateTemp(".", "fhir_payload_*.json")`: the name of the new file. -/
  createTemp : Except GoString String
  /-- Error of `io.Copy(tempPayloadFile, c.Request.Body)` on an open file. -/
  copy : Option GoString
  /-- Error of `tempPayloadFile.Write(reqBody.Payload)`. -/
  write : Option GoString
  /-- Output returned by `cmdExecution.CombinedOutput()`. -/
  output : GoString
  /-- Error returned by `cmdExecution.CombinedOutput()`. -/
  runErr : Option GoString
  /-- Error of `cmdExecution.StdoutPipe()`. -/
  stdoutPipe : Option GoString
  /-- Error of `cmdExecution.StderrPipe()`. -/
  stderrPipe : Option GoString
  /-- Error of `cmdExecution.Start()`. -/
  start : Option GoString
  /-- The events written while the process runs, by the receive loop
  (`console_out`) and by the goroutine that waits for the process
  (`server_error`), in the order in which they reach the writer.  That order is
  decided by the scheduling of the goroutines and is not modelled. -/
  streamed : List (String × GoString)

/-- A fresh response: gin starts with status 200, no header, empty body. -/
def Response.fresh : Response := ⟨200, [], [], []⟩

/-- Go `Header.Set`: the value replaces any value the key has. -/
def setHeader (key value : String) (w : World) : World :=
  { w with resp := { w.resp with
      headers := w.resp.headers.filter (fun kv => kv.1 != key) ++ [(key, value)] } }

/-- The value of a response header. -/
def getHeader (key : String) (w : World) : Option String :=
  (w.resp.headers.find? (fun kv => kv.1 == key)).map (fun kv => kv.2)

/-- Gin `c.String(code, msg)` without format arguments: sets the status, sets
`Content-Type` to plain text unless the header has a value already (gin's
`writeContentType`), and writes `msg` to the body as it is. -/
def cString (code : Nat) (msg : GoString) (w : World) : World :=
  let w1 := match getHeader "Content-Type" w with
    | some _ => w
    | none => setHeader "Content-Type" "text/plain; charset=utf-8" w
  { w1 with resp := { w1.resp with status := code, body := w1.resp.body ++ msg } }

/-- Records a call. -/
def call (e : Effect) (w : World) : World :=
  { w with calls := w.calls ++ [e] }

/-- A successful `os.CreateTemp`: the file `name` now exists. -/
def osCreateTemp (name : String) (w : World) : World :=
  call (Effect.createTemp (some name)) { w with files := name :: w.files }

/-- The call `os.Remove(name)`: the name no longer exists afterwards. -/
def osRemove (name : String) (w : World) : World :=
  call (Effect.remove name) { w with files := w.files.filter (fun f => f != name) }

/-- The slice `cmdArgs` built by both handlers (lines 81-82 and 149-150). -/
def cmdArgs (name : String) (args : List String) : List String :=
  ["-jar", "validator_cli.jar", name] ++ args

/-- The field `Args` of the command made by `exec.CommandContext(ctx, name, arg...)`:
the program name followed by the arguments. -/
def CommandContext (name : String) (arg : List String) : List String :=
  name :: arg

/-! ### The handlers -/

/-- The handler `SyncValidation` (lines 41-98).

The error of `os.CreateTemp` is overwritten by the one of `io.Copy` (line 55).
When `os.CreateTemp` fails the file is `nil`, and writing to a `nil` file fails
with `os.ErrInvalid` before any system call, so the handler leaves through the
branch of line 57. -/
def SyncValidation (env : Env) (w : World) : World :=
  match env.bind with
  | .error e => cString 400 (str "Error parsing request body: " ++ e) w
  | .ok reqBody =>
    if reqBody.Payload.length = 0 then
      cString 400 (str "Payload is required") w
    else
      match env.createTemp with
      | .error _ =>
        let w := call (Effect.createTemp none) w
        cString 500 (str "Failed to write payload to file: " ++ str "invalid argument") w
      | .ok name =>
        let w := osCreateTemp name w
        let w := call (Effect.copy name) w
        match env.copy with
        | some e => cString 500 (str "Failed to write payload to file: " ++ e) w
        | none =>
          let w := call (Effect.write name reqBody.Payload) w
          match env.write with
          | some e => cString 500 (str "Failed to write payload to file: " ++ e) w
          | none =>
            let w := call (Effect.close name) w
            -- from here on `os.Remove(name)` is deferred (lines 72-74)
            let cmdExecution := CommandContext "java" (cmdArgs name reqBody.Args)
            let w := call (Effect.combinedOutput cmdExecution) w
            let w := match env.runErr with
              | some e => cString 500 (str "validator_cli.jar exited with status " ++ e) w
              | none => cString 200 (consoleOutputToPlainText env.output) w
            osRemove name w

/-- The part of `SseValidation` that runs after the removal of the temp file has
been deferred (lines 132-205). -/
def sseBody (env : Env) (reqBody : TestRequest) (name : String) (w : World) : World :=
  let w := call (Effect.write name reqBody.Payload) w
  match env.write with
  | some e => cString 500 (str "Failed to write payload to file: " ++ e) w
  | none =>
    let w := call (Effect.close name) w
    let w := setHeader "Content-Type" "text/event-stream" w
    let w := setHeader "Cache-Control" "no-cache" w
    let w := setHeader "Connection" "keep-alive" w
    let w := setHeader "Transfer-Encoding" "chunked" w
    let w := setHeader "Access-Control-Allow-Origin" "*" w
    let cmdExecution := CommandContext "java" (cmdArgs name reqBody.Args)
    let w := call Effect.stdoutPipe w
    match env.stdoutPipe with
    | some e => cString 500 (str "Failed to get stdout pipe: " ++ e) w
    | none =>
      let w := call Effect.stderrPipe w
      match env.stderrPipe with
      | some e => cString 500 (str "Failed to get stderr pipe: " ++ e) w
      | none =>
        let w := call (Effect.start cmdExecution) w
        match env.start with
        | some e => cString 500 (str "Failed to start command: " ++ e) w
        | none =>
          { w with resp := { w.resp with events := w.resp.events ++ env.streamed } }

/-- The handler `SseValidation` (lines 111-206). -/
def SseValidation (env : Env) (w : World) : World :=
  match env.bind with
  | .error e => cString 400 (str "Error parsing request body: " ++ e) w
  | .ok reqBody =>
    if reqBody.Payload.length = 0 then
      cString 400 (str "Payload is required") w
    else
      match env.createTemp with
      | .error e =>
        let w := call (Effect.createTemp none) w
        cString 500 (str "Failed to create temp file: " ++ e) w
      | .ok name =>
        let w := osCreateTemp name w
        -- `defer os.Remove(name)` (lines 128-130): runs when the handler returns
        osRemove name (sseBody env reqBody name w)

/-! ## The pattern in the words of the specification -/

/-- An escape sequence: the escape character, `[`, zero or more digits or
semicolons, and a final `m`. -/
def IsAnsiSeq (e : GoString) : Prop :=
  ∃ ps : GoString, (∀ p ∈ ps, isParamByte p = true) ∧ e = 0x1b :: 0x5b :: (ps ++ [0x6d])

/-- The text has a substring that is an escape sequence. -/
def ContainsAnsiSeq (s : GoString) : Prop :=
  ∃ pre e post : GoString, IsAnsiSeq e ∧ s = pre ++ e ++ post

/-- `Spliced e t`: the text `t` is the text `e` with complete escape sequences
inserted in front of some of its bytes (none after its last byte). -/
inductive Spliced : GoString → GoString → Prop where
  | nil : Spliced [] []
  | keep (c : UInt8) {e t : GoString} : Spliced e t → Spliced (c :: e) (c :: t)
  | ins {x : GoString} (c : UInt8) {e t : GoString} :
      IsAnsiSeq x → Spliced (c :: e) t → Spliced (c :: e) (x ++ t)

/-- The text contains an interrupted escape sequence: an escape sequence
ESC `e` with one or more complete escape sequences inserted after its escape
character and before its final `m`, as in ESC `[` ESC `[` `m` `m`. -/
def Interrupted (s : GoString) : Prop :=
  ∃ pre e t post : GoString,
    IsAnsiSeq (0x1b :: e) ∧ Spliced e t ∧ t ≠ e ∧ s = pre ++ 0x1b :: (t ++ post)

/-- No escape character comes directly after the start of an escape sequence
that is not yet complete: the text has no substring ESC ESC and no substring
ESC `[` (digits or semicolons) ESC. -/
def NoEscAfterPrefix (s : GoString) : Prop :=
  ∀ pre ps post : GoString, (∀ p ∈ ps, isParamByte p = true) →
    s ≠ pre ++ 0x1b :: 0x1b :: post ∧ s ≠ pre ++ 0x1b :: 0x5b :: (ps ++ 0x1b :: post)

/-! ## Example requests -/

/-- The state before a request: no temp file, no call made, a fresh response. -/
def World.fresh : World := ⟨[], [], Response.fresh⟩

/-- A request with payload `{}` and two arguments, for which every call succeeds;
the validator prints one coloured line. -/
def exampleEnv : Env where
  bind := .ok ⟨str "\x7b\x7d", ["-version", "4.0.1"]⟩
  createTemp := .ok "fhir_payload_1.json"
  copy := none
  write := none
  output := str "\x1b[32mSuccess\x1b[0m: 0 errors"
  runErr := none
  stdoutPipe := none
  stderrPipe := none
  start := none
  streamed := [("console_out", str "Success: 0 errors")]

/-- A request whose payload is empty. -/
def envEmptyPayload : Env := { exampleEnv with bind := .ok ⟨[], ["-version", "4.0.1"]⟩ }

/-- The write of the payload to the temp file fails. -/
def envWriteFails : Env := { exampleEnv with write := some (str "no space left on device") }

/-- The validator exits with status 1. -/
def envRunFails : Env := { exampleEnv with runErr := some (str "exit status 1") }

/-- The validator cannot be started. -/
def envStartFails : Env := { exampleEnv with start := some (str "exec: no command") }

/-! ## The sanitizer -/

theorem isParamByte_ne_m {c : UInt8} (h : isParamByte c = true) : c ≠ 0x6d := by
  intro hc
  subst hc
  revert h
  decide

theorem starMatch_eq_dropWhile (cls : UInt8 → Bool) (k : GoString → Option GoString)
    (hk : ∀ c cs, cls c = true → k (c :: cs) = none) (s : GoString) :
    starMatch cls k s = k (s.dropWhile cls) := by
  induction s with
  | nil => rfl
  | cons c cs ih =>
    by_cases hc : cls c = true
    · rw [List.dropWhile_cons_of_pos hc, ← ih]
      simp only [starMatch, hc, if_true]
      cases hrest : starMatch cls k cs with
      | none => exact hk c cs hc
      | some r => rfl
    · rw [List.dropWhile_cons_of_neg hc]
      simp only [starMatch, hc]
      rfl

theorem matchHere_m_cons (c : UInt8) (cs : GoString) :
    matchHere [Item.lit 0x6d] (c :: cs) = if c = 0x6d then some cs else none := by
  simp [matchHere]

theorem matchHere_m_nil : matchHere [Item.lit 0x6d] [] = none := rfl

theorem matchHere_ansi (c1 c2 : UInt8) (t : GoString) :
    matchHere ansiRegex (c1 :: c2 :: t) =
      if c1 = 0x1b ∧ c2 = 0x5b then matchHere [Item.lit 0x6d] (t.dropWhile isParamByte) else none := by
  have hk : ∀ c cs, isParamByte c = true → matchHere [Item.lit 0x6d] (c :: cs) = none := by
    intro c cs hc
    rw [matchHere_m_cons, if_neg (isParamByte_ne_m hc)]
  have hstar : matchHere [Item.star isParamByte, Item.lit 0x6d] t =
      matchHere [Item.lit 0x6d] (t.dropWhile isParamByte) := by
    rw [← starMatch_eq_dropWhile _ _ hk]
    rfl
  have hunf : matchHere ansiRegex (c1 :: c2 :: t) =
      if c1 = 0x1b then (if c2 = 0x5b then matchHere [Item.star isParamByte, Item.lit 0x6d] t else none)
      else none := rfl
  rw [hunf, hstar]
  by_cases h1 : c1 = 0x1b <;> by_cases h2 : c2 = 0x5b <;> simp [h1, h2]

theorem matchHere_ansi_nil : matchHere ansiRegex [] = none := rfl

theorem matchHere_ansi_single (c : UInt8) : matchHere ansiRegex [c] = none := by
  have hunf : matchHere ansiRegex [c] = if c = 0x1b then none else none := rfl
  rw [hunf]
  simp

theorem matchHere_ansi_of_ne {c : UInt8} (h : c ≠ 0x1b) (cs : GoString) :
    matchHere ansiRegex (c :: cs) = none := by
  cases cs with
  | nil => exact matchHere_ansi_single c
  | cons c2 t =>
    rw [matchHere_ansi, if_neg]
    exact fun hc => h hc.1

theorem dropWhile_params (ps rest : GoString) (h : ∀ p ∈ ps, isParamByte p = true) :
    (ps ++ 0x6d :: rest).dropWhile isParamByte = 0x6d :: rest := by
  induction ps with
  | nil => rfl
  | cons p ps ih =>
    have hp : isParamByte p = true := h p (List.mem_cons_self p ps)
    rw [List.cons_append, List.dropWhile_cons_of_pos hp]
    exact ih (fun q hq => h q (List.mem_cons_of_mem p hq))

/-- An escape sequence at the head of the input is the match found there. -/
theorem matchHere_ansi_seq {e : GoString} (he : IsAnsiSeq e) (rest : GoString) :
    matchHere ansiRegex (e ++ rest) = some rest := by
  obtain ⟨ps, hps, rfl⟩ := he
  have happ : (0x1b :: 0x5b :: (ps ++ [0x6d])) ++ rest = 0x1b :: 0x5b :: (ps ++ 0x6d :: rest) := by
    simp
  rw [happ, matchHere_ansi, if_pos ⟨rfl, rfl⟩, dropWhile_params ps rest hps, matchHere_m_cons,
    if_pos rfl]

/-- A match at the head of the input is an escape sequence. -/
theorem matchHere_ansi_some {s rest : GoString} (h : matchHere ansiRegex s = some rest) :
    ∃ e, IsAnsiSeq e ∧ s = e ++ rest := by
  match s, h with
  | [], h => simp [matchHere_ansi_nil] at h
  | [c], h => simp [matchHere_ansi_single] at h
  | c1 :: c2 :: t, h =>
    rw [matchHere_ansi] at h
    by_cases hc : c1 = 0x1b ∧ c2 = 0x5b
    · rw [if_pos hc] at h
      obtain ⟨rfl, rfl⟩ := hc
      have hsplit : t = t.takeWhile isParamByte ++ t.dropWhile isParamByte :=
        (List.takeWhile_append_dropWhile isParamByte t).symm
      cases hd : t.dropWhile isParamByte with
      | nil => rw [hd, matchHere_m_nil] at h; exact absurd h (by simp)
      | cons d ds =>
        rw [hd, matchHere_m_cons] at h
        by_cases hm : d = 0x6d
        · rw [if_pos hm] at h
          have hds : ds = rest := Option.some.inj h
          subst hm hds
          refine ⟨0x1b :: 0x5b :: (t.takeWhile isParamByte ++ [0x6d]), ⟨_, ?_, rfl⟩, ?_⟩
          · intro p hp
            exact (List.mem_takeWhile_imp hp)
          · rw [hd] at hsplit
            simp only [List.cons_append, List.append_assoc, List.nil_append]
            rw [← hsplit]
        · rw [if_neg hm] at h
          exact absurd h (by simp)
    · rw [if_neg hc] at h
      exact absurd h (by simp)

theorem isAnsiSeq_length {e : GoString} (he : IsAnsiSeq e) : 3 ≤ e.length := by
  obtain ⟨ps, _, rfl⟩ := he
  simp

theorem matchHere_ansi_length {s rest : GoString} (h : matchHere ansiRegex s = some rest) :
    rest.length + 3 ≤ s.length := by
  obtain ⟨e, he, rfl⟩ := matchHere_ansi_some h
  have := isAnsiSeq_length he
  simp only [List.length_append]
  omega

/-- The bound on the number of iterations is never reached: any bound that is at
least the length of the input gives the same result. -/
theorem replaceAllAux_fuel (n : Nat) : ∀ (s : GoString) (m : Nat), s.length ≤ n → s.length ≤ m →
    replaceAllAux ansiRegex [] n s = replaceAllAux ansiRegex [] m s := by
  induction n with
  | zero =>
    intro s m hn _
    have hs : s = [] := List.length_eq_zero.mp (Nat.le_zero.mp hn)
    subst hs
    cases m <;> rfl
  | succ n ih =>
    intro s m hn hm
    cases s with
    | nil => cases m <;> rfl
    | cons c cs =>
      cases m with
      | zero => simp at hm
      | succ m =>
        simp only [List.length_cons, Nat.add_le_add_iff_right] at hn hm
        simp only [replaceAllAux]
        cases hmatch : matchHere ansiRegex (c :: cs) with
        | none =>
          simp only []
          rw [ih cs m hn hm]
        | some rest =>
          have hlen := matchHere_ansi_length hmatch
          simp only [List.length_cons] at hlen
          simp only []
          rw [ih rest m (by omega) (by omega)]

theorem consoleOutputToPlainText_nil : consoleOutputToPlainText [] = [] := rfl

theorem consoleOutputToPlainText_cons_none {c : UInt8} {cs : GoString}
    (h : matchHere ansiRegex (c :: cs) = none) :
    consoleOutputToPlainText (c :: cs) = c :: consoleOutputToPlainText cs := by
  simp only [consoleOutputToPlainText, ReplaceAllString, List.length_cons, replaceAllAux, h]

theorem consoleOutputToPlainText_match {s rest : GoString}
    (h : matchHere ansiRegex s = some rest) :
    consoleOutputToPlainText s = consoleOutputToPlainText rest := by
  have hlen := matchHere_ansi_length h
  cases s with
  | nil => simp [matchHere_ansi_nil] at h
  | cons c cs =>
    simp only [List.length_cons] at hlen
    simp only [consoleOutputToPlainText, ReplaceAllString, List.length_cons, replaceAllAux, h,
      List.nil_append]
    exact replaceAllAux_fuel _ rest _ (by omega) (Nat.le_refl _)

/-! ### Text without the escape character, and escape sequences -/

theorem consoleOutputToPlainText_text_append (t s : GoString) (ht : (0x1b : UInt8) ∉ t) :
    consoleOutputToPlainText (t ++ s) = t ++ consoleOutputToPlainText s := by
  induction t with
  | nil => rfl
  | cons c cs ih =>
    have hc : c ≠ 0x1b := fun h => ht (h ▸ List.mem_cons_self c cs)
    have hcs : (0x1b : UInt8) ∉ cs := fun h => ht (List.mem_cons_of_mem c h)
    rw [List.cons_append, consoleOutputToPlainText_cons_none (matchHere_ansi_of_ne hc _), ih hcs,
      List.cons_append]

theorem consoleOutputToPlainText_text (t : GoString) (ht : (0x1b : UInt8) ∉ t) :
    consoleOutputToPlainText t = t := by
  have h := consoleOutputToPlainText_text_append t [] ht
  rw [List.append_nil, consoleOutputToPlainText_nil, List.append_nil] at h
  exact h

theorem consoleOutputToPlainText_seq_append {e : GoString} (he : IsAnsiSeq e) (s : GoString) :
    consoleOutputToPlainText (e ++ s) = consoleOutputToPlainText s :=
  consoleOutputToPlainText_match (matchHere_ansi_seq he s)

theorem isAnsiSeq_head {e : GoString} (he : IsAnsiSeq e) : ∃ t, e = 0x1b :: t := by
  obtain ⟨ps, _, rfl⟩ := he
  exact ⟨_, rfl⟩

theorem containsAnsiSeq_esc {s : GoString} (h : ContainsAnsiSeq s) : (0x1b : UInt8) ∈ s := by
  obtain ⟨pre, e, post, he, rfl⟩ := h
  obtain ⟨t, rfl⟩ := isAnsiSeq_head he
  simp

/-! ### Line breaks -/

theorem isAnsiSeq_no_newline {e : GoString} (he : IsAnsiSeq e) : (0x0a : UInt8) ∉ e := by
  obtain ⟨ps, hps, rfl⟩ := he
  intro h
  simp only [List.mem_cons, List.mem_append, List.mem_singleton, List.not_mem_nil, or_false] at h
  rcases h with h | h | h | h
  · exact absurd h (by decide)
  · exact absurd h (by decide)
  · exact absurd (hps _ h) (by decide)
  · exact absurd h (by decide)

theorem matchHere_ansi_newline {a : GoString} (h : matchHere ansiRegex a = none) (b : GoString) :
    matchHere ansiRegex (a ++ 0x0a :: b) = none := by
  cases hm : matchHere ansiRegex (a ++ 0x0a :: b) with
  | none => rfl
  | some r =>
    exfalso
    obtain ⟨e, he, hsplit⟩ := matchHere_ansi_some hm
    rcases List.append_eq_append_iff.mp hsplit with ⟨a2, hea, hb⟩ | ⟨c2, hae, _⟩
    · cases a2 with
      | nil =>
        rw [List.append_nil] at hea
        have := matchHere_ansi_seq he []
        rw [List.append_nil, hea, h] at this
        exact absurd this (by simp)
      | cons d ds =>
        have hd : d = 0x0a := by
          have := congrArg List.head? hb
          simpa using this.symm
        apply isAnsiSeq_no_newline he
        rw [hea, hd]
        simp
    · have := matchHere_ansi_seq he c2
      rw [← hae, h] at this
      exact absurd this (by simp)

theorem consoleOutputToPlainText_newline (n : Nat) : ∀ a b : GoString, a.length ≤ n →
    consoleOutputToPlainText (a ++ 0x0a :: b) =
      consoleOutputToPlainText a ++ 0x0a :: consoleOutputToPlainText b := by
  induction n with
  | zero =>
    intro a b hn
    have ha : a = [] := List.length_eq_zero.mp (Nat.le_zero.mp hn)
    subst ha
    rw [List.nil_append, consoleOutputToPlainText_nil, List.nil_append,
      consoleOutputToPlainText_cons_none (matchHere_ansi_of_ne (by decide) _)]
  | succ n ih =>
    intro a b hn
    cases a with
    | nil =>
      rw [List.nil_append, consoleOutputToPlainText_nil, List.nil_append,
        consoleOutputToPlainText_cons_none (matchHere_ansi_of_ne (by decide) _)]
    | cons c cs =>
      simp only [List.length_cons, Nat.add_le_add_iff_right] at hn
      cases hm : matchHere ansiRegex (c :: cs) with
      | none =>
        have hm2 := matchHere_ansi_newline hm b
        rw [List.cons_append] at hm2 ⊢
        rw [consoleOutputToPlainText_cons_none hm2, consoleOutputToPlainText_cons_none hm,
          ih cs b hn, List.cons_append]
      | some rest =>
        obtain ⟨e, he, hsplit⟩ := matchHere_ansi_some hm
        have hlen := matchHere_ansi_length hm
        simp only [List.length_cons] at hlen
        rw [consoleOutputToPlainText_match hm, hsplit, List.append_assoc,
          consoleOutputToPlainText_seq_append he]
        exact ih rest b (by omega)

/-! ### Claims about the sanitizer -/

/-- C5, as stated, fails: for the input ESC `[` ESC `[` `m` `m` the one match
(the inner ESC `[` `m`) is removed, and the bytes around it join into the escape
sequence ESC `[` `m`, which is in the output. -/
theorem C5_output_contains_sequence :
    consoleOutputToPlainText [0x1b, 0x5b, 0x1b, 0x5b, 0x6d, 0x6d] = [0x1b, 0x5b, 0x6d] ∧
    ContainsAnsiSeq (consoleOutputToPlainText [0x1b, 0x5b, 0x1b, 0x5b, 0x6d, 0x6d]) :=
  ⟨by decide,
   ⟨[], [0x1b, 0x5b, 0x6d], [], ⟨[], fun _ h => absurd h (List.not_mem_nil _), rfl⟩, by decide⟩⟩

/-- C6: for texts `t0 .. tn` without the escape character and escape sequences
`e1 .. en`, `consoleOutputToPlainText (t0 e1 t1 .. en tn) = t0 t1 .. tn`.  The
list `segs` holds the pairs `(e1, t1), .., (en, tn)`. -/
theorem C6_sequences_removed_text_kept (t0 : GoString) (segs : List (GoString × GoString))
    (h0 : (0x1b : UInt8) ∉ t0)
    (hsegs : ∀ p ∈ segs, IsAnsiSeq p.1 ∧ (0x1b : UInt8) ∉ p.2) :
    consoleOutputToPlainText (t0 ++ (segs.map (fun p => p.1 ++ p.2)).flatten) =
      t0 ++ (segs.map (fun p => p.2)).flatten := by
  rw [consoleOutputToPlainText_text_append t0 _ h0]
  congr 1
  induction segs with
  | nil => rfl
  | cons p ps ih =>
    obtain ⟨he, ht⟩ := hsegs p (List.mem_cons_self p ps)
    simp only [List.map_cons, List.flatten_cons, List.append_assoc]
    rw [consoleOutputToPlainText_seq_append he, consoleOutputToPlainText_text_append _ _ ht,
      ih (fun q hq => hsegs q (List.mem_cons_of_mem p hq))]

/-- C7, as stated, fails: sanitizing ESC `[` ESC `[` `m` `m` gives ESC `[` `m`, and
sanitizing that gives the empty text. -/
theorem C7_not_idempotent :
    consoleOutputToPlainText (consoleOutputToPlainText [0x1b, 0x5b, 0x1b, 0x5b, 0x6d, 0x6d]) ≠
      consoleOutputToPlainText [0x1b, 0x5b, 0x1b, 0x5b, 0x6d, 0x6d] := by
  decide

/-- C10: sanitizing the lines one by one and joining them with line breaks gives
the same text as sanitizing the joined text.  It holds for every list of texts;
the claim asks for it only when no text of the list has a line break. -/
theorem C10_linewise_agrees_with_whole (ls : List GoString) :
    consoleOutputToPlainText (List.intercalate [0x0a] ls) =
      List.intercalate [0x0a] (ls.map consoleOutputToPlainText) := by
  induction ls with
  | nil => rfl
  | cons l ls ih =>
    cases ls with
    | nil => simp [List.intercalate]
    | cons l2 ls =>
      have hsplit : List.intercalate [0x0a] (l :: l2 :: ls) =
          l ++ 0x0a :: List.intercalate [0x0a] (l2 :: ls) := by
        simp [List.intercalate]
      have hsplit2 : List.intercalate [0x0a] ((l :: l2 :: ls).map consoleOutputToPlainText) =
          consoleOutputToPlainText l ++
            0x0a :: List.intercalate [0x0a] ((l2 :: ls).map consoleOutputToPlainText) := by
        simp [List.intercalate]
      rw [hsplit, hsplit2, consoleOutputToPlainText_newline l.length l _ (Nat.le_refl _), ih]

/-! ## The handlers -/

theorem cString_files (code : Nat) (msg : GoString) (w : World) :
    (cString code msg w).files = w.files := by
  unfold cString
  cases getHeader "Content-Type" w <;> rfl

theorem cString_calls (code : Nat) (msg : GoString) (w : World) :
    (cString code msg w).calls = w.calls := by
  unfold cString
  cases getHeader "Content-Type" w <;> rfl

theorem cString_status (code : Nat) (msg : GoString) (w : World) :
    (cString code msg w).resp.status = code := by
  unfold cString
  cases getHeader "Content-Type" w <;> rfl

theorem cString_body (code : Nat) (msg : GoString) (w : World) :
    (cString code msg w).resp.body = w.resp.body ++ msg := by
  unfold cString
  cases getHeader "Content-Type" w <;> rfl

theorem cString_events (code : Nat) (msg : GoString) (w : World) :
    (cString code msg w).resp.events = w.resp.events := by
  unfold cString
  cases getHeader "Content-Type" w <;> rfl

/-- A `Content-Type` that is set already survives `c.String`. -/
theorem cString_contentType (code : Nat) (msg : GoString) (w : World) (v : String)
    (h : getHeader "Content-Type" w = some v) :
    getHeader "Content-Type" (cString code msg w) = some v := by
  unfold cString
  rw [h]
  exact h

theorem find_filter_append_same (key value : String) (l : List (String × String)) :
    List.find? (fun kv => kv.1 == key) (List.filter (fun kv => kv.1 != key) l ++ [(key, value)]) =
      some (key, value) := by
  induction l with
  | nil => simp
  | cons a l ih =>
    by_cases ha : a.1 = key
    · have hb : (a.1 != key) = false := by simp [ha]
      rw [List.filter_cons, hb]
      exact ih
    · have hb : (a.1 != key) = true := by simp [ha]
      have hq : (a.1 == key) = false := by simp [ha]
      rw [List.filter_cons, hb, if_pos rfl, List.cons_append, List.find?_cons, hq]
      exact ih

theorem find_filter_other (key key2 : String) (h : key2 ≠ key) (l : List (String × String)) :
    List.find? (fun kv => kv.1 == key) (List.filter (fun kv => kv.1 != key2) l) =
      List.find? (fun kv => kv.1 == key) l := by
  induction l with
  | nil => rfl
  | cons a l ih =>
    by_cases ha : a.1 = key2
    · have hb : (a.1 != key2) = false := by simp [ha]
      have hq : (a.1 == key) = false := by
        have hne : ¬ a.1 = key := fun e => h (ha.symm.trans e)
        simp [hne]
      rw [List.filter_cons, hb, List.find?_cons, hq]
      exact ih
    · have hb : (a.1 != key2) = true := by simp [ha]
      rw [List.filter_cons, hb, if_pos rfl, List.find?_cons, List.find?_cons, ih]

theorem getHeader_setHeader_same (key value : String) (w : World) :
    getHeader key (setHeader key value w) = some value := by
  simp only [getHeader, setHeader, find_filter_append_same]
  rfl

theorem getHeader_setHeader_other (key key2 value : String) (w : World) (h : key2 ≠ key) :
    getHeader key (setHeader key2 value w) = getHeader key w := by
  simp only [getHeader, setHeader]
  congr 1
  rw [List.find?_append, find_filter_other key key2 h]
  cases List.find? (fun kv => kv.1 == key) w.resp.headers with
  | some x => rfl
  | none =>
    have hlast : (key2 == key) = false := by simpa using h
    simp [List.find?_cons, hlast]

/-! ### Claims about the handlers -/

/-- C1: when the bound payload has length 0, both handlers answer with status 400
and the body `Payload is required`, and return without any call to the operating
system: no temp file is created and no command is run or started. -/
theorem C1_empty_payload_rejected (env : Env) (w : World) (reqBody : TestRequest)
    (hbind : env.bind = .ok reqBody) (hlen : reqBody.Payload.length = 0) :
    (SyncValidation env w = cString 400 (str "Payload is required") w ∧
      SseValidation env w = cString 400 (str "Payload is required") w) ∧
    ((SyncValidation env w).resp.status = 400 ∧
      (SyncValidation env w).resp.body = w.resp.body ++ str "Payload is required" ∧
      (SyncValidation env w).files = w.files ∧ (SyncValidation env w).calls = w.calls) ∧
    ((SseValidation env w).resp.status = 400 ∧
      (SseValidation env w).resp.body = w.resp.body ++ str "Payload is required" ∧
      (SseValidation env w).files = w.files ∧ (SseValidation env w).calls = w.calls ∧
      (SseValidation env w).resp.events = w.resp.events) := by
  have h1 : SyncValidation env w = cString 400 (str "Payload is required") w := by
    simp only [SyncValidation, hbind, hlen, if_true]
  have h2 : SseValidation env w = cString 400 (str "Payload is required") w := by
    simp only [SseValidation, hbind, hlen, if_true]
  refine ⟨⟨h1, h2⟩, ?_, ?_⟩
  · rw [h1]
    exact ⟨cString_status _ _ _, cString_body _ _ _, cString_files _ _ _, cString_calls _ _ _⟩
  · rw [h2]
    exact ⟨cString_status _ _ _, cString_body _ _ _, cString_files _ _ _, cString_calls _ _ _,
      cString_events _ _ _⟩

/-- C1 at a request with an empty payload and two arguments. -/
theorem C1_empty_payload_rejected_witness :
    envEmptyPayload.bind = .ok ⟨[], ["-version", "4.0.1"]⟩ ∧
    (SyncValidation envEmptyPayload World.fresh).resp.status = 400 ∧
    (SyncValidation envEmptyPayload World.fresh).calls = [] ∧
    (SseValidation envEmptyPayload World.fresh).resp.status = 400 ∧
    (SseValidation envEmptyPayload World.fresh).calls = [] :=
  have h := C1_empty_payload_rejected envEmptyPayload World.fresh ⟨[], ["-version", "4.0.1"]⟩ rfl rfl
  ⟨rfl, h.2.1.1, h.2.1.2.2.2, h.2.2.1, h.2.2.2.2.2.1⟩

theorem call_calls (e : Effect) (w : World) : (call e w).calls = w.calls ++ [e] := rfl

theorem call_files (e : Effect) (w : World) : (call e w).files = w.files := rfl

theorem call_resp (e : Effect) (w : World) : (call e w).resp = w.resp := rfl

theorem osCreateTemp_calls (name : String) (w : World) :
    (osCreateTemp name w).calls = w.calls ++ [Effect.createTemp (some name)] := rfl

theorem osCreateTemp_resp (name : String) (w : World) : (osCreateTemp name w).resp = w.resp := rfl

theorem osCreateTemp_mem (name : String) (w : World) : name ∈ (osCreateTemp name w).files :=
  List.mem_cons_self _ _

theorem osRemove_calls (name : String) (w : World) :
    (osRemove name w).calls = w.calls ++ [Effect.remove name] := rfl

theorem osRemove_resp (name : String) (w : World) : (osRemove name w).resp = w.resp := rfl

theorem osRemove_not_mem (name : String) (w : World) : name ∉ (osRemove name w).files := by
  simp [osRemove, call, List.mem_filter]

theorem setHeader_calls (key value : String) (w : World) :
    (setHeader key value w).calls = w.calls := rfl

theorem setHeader_status (key value : String) (w : World) :
    (setHeader key value w).resp.status = w.resp.status := rfl

theorem setHeader_body (key value : String) (w : World) :
    (setHeader key value w).resp.body = w.resp.body := rfl

theorem setHeader_events (key value : String) (w : World) :
    (setHeader key value w).resp.events = w.resp.events := rfl

theorem getHeader_call (key : String) (e : Effect) (w : World) :
    getHeader key (call e w) = getHeader key w := rfl

theorem getHeader_osRemove (key name : String) (w : World) :
    getHeader key (osRemove name w) = getHeader key w := rfl

/-- The state in which `SyncValidation` returns once the temp file `name` holds
the payload: the validator is run, the response is written, the file is removed. -/
theorem SyncValidation_run (env : Env) (w : World) (reqBody : TestRequest) (name : String)
    (hbind : env.bind = .ok reqBody) (hlen : reqBody.Payload.length ≠ 0)
    (htemp : env.createTemp = .ok name) (hcopy : env.copy = none) (hwrite : env.write = none) :
    SyncValidation env w =
      osRemove name
        (match env.runErr with
          | some e => cString 500 (str "validator_cli.jar exited with status " ++ e)
              (call (Effect.combinedOutput (CommandContext "java" (cmdArgs name reqBody.Args)))
                (call (Effect.close name) (call (Effect.write name reqBody.Payload)
                  (call (Effect.copy name) (osCreateTemp name w)))))
          | none => cString 200 (consoleOutputToPlainText env.output)
              (call (Effect.combinedOutput (CommandContext "java" (cmdArgs name reqBody.Args)))
                (call (Effect.close name) (call (Effect.write name reqBody.Payload)
                  (call (Effect.copy name) (osCreateTemp name w)))))) := by
  simp only [SyncValidation, hbind, hlen, if_false, htemp, hcopy, hwrite]

/-- C2: for a valid request whose payload has been written to the temp file, if
the buffered run returns no error the response is status 200 with body exactly
`consoleOutputToPlainText output`; if it returns the error `e` the response is
status 500 with body `validator_cli.jar exited with status ` followed by `e`,
and the response is the same whatever the captured output is. -/
theorem C2_sync_response (env : Env) (w : World) (reqBody : TestRequest) (name : String)
    (hbind : env.bind = .ok reqBody) (hlen : reqBody.Payload.length ≠ 0)
    (htemp : env.createTemp = .ok name) (hcopy : env.copy = none) (hwrite : env.write = none) :
    (env.runErr = none →
      (SyncValidation env w).resp.status = 200 ∧
      (SyncValidation env w).resp.body = w.resp.body ++ consoleOutputToPlainText env.output) ∧
    (∀ e, env.runErr = some e →
      (SyncValidation env w).resp.status = 500 ∧
      (SyncValidation env w).resp.body =
        w.resp.body ++ (str "validator_cli.jar exited with status " ++ e) ∧
      ∀ output2 : GoString,
        (SyncValidation { env with output := output2 } w).resp = (SyncValidation env w).resp) := by
  refine ⟨?_, ?_⟩
  · intro herr
    rw [SyncValidation_run env w reqBody name hbind hlen htemp hcopy hwrite, herr]
    exact ⟨cString_status _ _ _, cString_body _ _ _⟩
  · intro e herr
    refine ⟨?_, ?_, ?_⟩
    · rw [SyncValidation_run env w reqBody name hbind hlen htemp hcopy hwrite, herr]
      exact cString_status _ _ _
    · rw [SyncValidation_run env w reqBody name hbind hlen htemp hcopy hwrite, herr]
      exact cString_body _ _ _
    · intro output2
      rw [SyncValidation_run env w reqBody name hbind hlen htemp hcopy hwrite,
        SyncValidation_run { env with output := output2 } w reqBody name hbind hlen htemp hcopy
          hwrite]
      simp only [herr]

/-- C2 at a run that prints one coloured line, and at a run that exits with status 1. -/
theorem C2_sync_response_witness :
    (SyncValidation exampleEnv World.fresh).resp.status = 200 ∧
    (SyncValidation exampleEnv World.fresh).resp.body = str "Success: 0 errors" ∧
    (SyncValidation envRunFails World.fresh).resp.status = 500 ∧
    (SyncValidation envRunFails World.fresh).resp.body =
      str "validator_cli.jar exited with status exit status 1" :=
  have h1 := (C2_sync_response exampleEnv World.fresh ⟨str "\x7b\x7d", ["-version", "4.0.1"]⟩
    "fhir_payload_1.json" rfl (by decide) rfl rfl rfl).1 rfl
  have h2 := (C2_sync_response envRunFails World.fresh ⟨str "\x7b\x7d", ["-version", "4.0.1"]⟩
    "fhir_payload_1.json" rfl (by decide) rfl rfl rfl).2 (str "exit status 1") rfl
  ⟨h1.1, h1.2.trans (by decide), h2.1, h2.2.1.trans (by decide)⟩

/-- The calls made by `sseBody` once the payload is written and both pipes are
open: the write, the close, the two pipes, and the start of the command. -/
theorem sseBody_calls (env : Env) (reqBody : TestRequest) (name : String) (w : World)
    (hwrite : env.write = none) (hout : env.stdoutPipe = none) (herr : env.stderrPipe = none) :
    (sseBody env reqBody name w).calls =
      w.calls ++ [Effect.write name reqBody.Payload, Effect.close name, Effect.stdoutPipe,
        Effect.stderrPipe, Effect.start (CommandContext "java" (cmdArgs name reqBody.Args))] := by
  simp only [sseBody, hwrite, hout, herr]
  cases env.start with
  | some e => simp [cString_calls, setHeader_calls, call_calls]
  | none => simp [setHeader_calls, call_calls]

theorem SseValidation_created (env : Env) (w : World) (reqBody : TestRequest) (name : String)
    (hbind : env.bind = .ok reqBody) (hlen : reqBody.Payload.length ≠ 0)
    (htemp : env.createTemp = .ok name) :
    SseValidation env w = osRemove name (sseBody env reqBody name (osCreateTemp name w)) := by
  simp only [SseValidation, hbind, hlen, if_false, htemp]

/-- C3: for the temp file `name` and the argument list `reqBody.Args`, both
handlers call the validator with the argument vector `java`, `-jar`,
`validator_cli.jar`, `name`, followed by the arguments in their order; it is the
only command of the request, and the vector is the same in both handlers. -/
theorem C3_argument_vector (env : Env) (w : World) (reqBody : TestRequest) (name : String)
    (hbind : env.bind = .ok reqBody) (hlen : reqBody.Payload.length ≠ 0)
    (htemp : env.createTemp = .ok name) (hwrite : env.write = none) :
    (env.copy = none →
      (SyncValidation env w).calls =
        w.calls ++ [Effect.createTemp (some name), Effect.copy name,
          Effect.write name reqBody.Payload, Effect.close name,
          Effect.combinedOutput (["java", "-jar", "validator_cli.jar", name] ++ reqBody.Args),
          Effect.remove name]) ∧
    (env.stdoutPipe = none → env.stderrPipe = none →
      (SseValidation env w).calls =
        w.calls ++ [Effect.createTemp (some name), Effect.write name reqBody.Payload,
          Effect.close name, Effect.stdoutPipe, Effect.stderrPipe,
          Effect.start (["java", "-jar", "validator_cli.jar", name] ++ reqBody.Args),
          Effect.remove name]) := by
  refine ⟨?_, ?_⟩
  · intro hcopy
    rw [SyncValidation_run env w reqBody name hbind hlen htemp hcopy hwrite, osRemove_calls]
    cases env.runErr with
    | some e => simp [cString_calls, call_calls, osCreateTemp_calls, CommandContext, cmdArgs]
    | none => simp [cString_calls, call_calls, osCreateTemp_calls, CommandContext, cmdArgs]
  · intro hout herr
    rw [SseValidation_created env w reqBody name hbind hlen htemp, osRemove_calls,
      sseBody_calls env reqBody name _ hwrite hout herr]
    simp [osCreateTemp_calls, CommandContext, cmdArgs]

/-- C3 at the temp file `fhir_payload_1.json` and the arguments `-version`, `4.0.1`. -/
theorem C3_argument_vector_witness :
    (SyncValidation exampleEnv World.fresh).calls =
      [Effect.createTemp (some "fhir_payload_1.json"),
        Effect.copy "fhir_payload_1.json",
        Effect.write "fhir_payload_1.json" (str "\x7b\x7d"),
        Effect.close "fhir_payload_1.json",
        Effect.combinedOutput
          ["java", "-jar", "validator_cli.jar", "fhir_payload_1.json", "-version", "4.0.1"],
        Effect.remove "fhir_payload_1.json"] ∧
    (SseValidation exampleEnv World.fresh).calls =
      [Effect.createTemp (some "fhir_payload_1.json"),
        Effect.write "fhir_payload_1.json" (str "\x7b\x7d"),
        Effect.close "fhir_payload_1.json",
        Effect.stdoutPipe,
        Effect.stderrPipe,
        Effect.start
          ["java", "-jar", "validator_cli.jar", "fhir_payload_1.json", "-version", "4.0.1"],
        Effect.remove "fhir_payload_1.json"] :=
  have h := C3_argument_vector exampleEnv World.fresh ⟨str "\x7b\x7d", ["-version", "4.0.1"]⟩
    "fhir_payload_1.json" rfl (by decide) rfl rfl
  ⟨h.1 rfl, h.2 rfl rfl⟩

/-- The temp file made by `SseValidation` does not exist when the handler
returns, on every path, and the removal is the last call of the handler. -/
theorem SseValidation_removes_temp (env : Env) (w : World) (reqBody : TestRequest)
    (name : String) (hbind : env.bind = .ok reqBody) (hlen : reqBody.Payload.length ≠ 0)
    (htemp : env.createTemp = .ok name) :
    name ∉ (SseValidation env w).files ∧
    (SseValidation env w).calls.getLast? = some (Effect.remove name) := by
  rw [SseValidation_created env w reqBody name hbind hlen htemp]
  exact ⟨osRemove_not_mem _ _, by simp [osRemove_calls]⟩

/-- The temp file made by `SyncValidation` does not exist when the handler
returns, provided the copy and the write succeeded. -/
theorem SyncValidation_removes_temp_after_write (env : Env) (w : World) (reqBody : TestRequest)
    (name : String) (hbind : env.bind = .ok reqBody) (hlen : reqBody.Payload.length ≠ 0)
    (htemp : env.createTemp = .ok name) (hcopy : env.copy = none) (hwrite : env.write = none) :
    name ∉ (SyncValidation env w).files := by
  rw [SyncValidation_run env w reqBody name hbind hlen htemp hcopy hwrite]
  exact osRemove_not_mem _ _

/-- When the copy or the write fails, `SyncValidation` returns before the removal
is deferred: the temp file stays, and no removal is among the calls. -/
theorem SyncValidation_keeps_temp_on_write_failure (env : Env) (w : World)
    (reqBody : TestRequest) (name : String) (hbind : env.bind = .ok reqBody)
    (hlen : reqBody.Payload.length ≠ 0) (htemp : env.createTemp = .ok name)
    (hfail : env.copy ≠ none ∨ env.write ≠ none) :
    name ∈ (SyncValidation env w).files ∧
    (SyncValidation env w).resp.status = 500 ∧
    ((SyncValidation env w).calls = w.calls ++ [Effect.createTemp (some name), Effect.copy name] ∨
      (SyncValidation env w).calls = w.calls ++ [Effect.createTemp (some name), Effect.copy name,
        Effect.write name reqBody.Payload]) := by
  cases hc : env.copy with
  | some e =>
    have hunf : SyncValidation env w =
        cString 500 (str "Failed to write payload to file: " ++ e)
          (call (Effect.copy name) (osCreateTemp name w)) := by
      simp only [SyncValidation, hbind, hlen, if_false, htemp, hc]
    rw [hunf, cString_files, cString_calls, cString_status]
    refine ⟨osCreateTemp_mem _ _, rfl, Or.inl ?_⟩
    simp [call_calls, osCreateTemp_calls]
  | none =>
    cases hw : env.write with
    | none => exact absurd hfail (by simp [hc, hw])
    | some e =>
      have hunf : SyncValidation env w =
          cString 500 (str "Failed to write payload to file: " ++ e)
            (call (Effect.write name reqBody.Payload)
              (call (Effect.copy name) (osCreateTemp name w))) := by
        simp only [SyncValidation, hbind, hlen, if_false, htemp, hc, hw]
      rw [hunf, cString_files, cString_calls, cString_status]
      refine ⟨osCreateTemp_mem _ _, rfl, Or.inr ?_⟩
      simp [call_calls, osCreateTemp_calls]

/-- C4, the failing input: the payload `{}` is bound, the temp file
`fhir_payload_1.json` is created, and the write of the payload fails.
`SyncValidation` answers 500 and returns with the temp file still in the
directory, without a call to `os.Remove`; `SseValidation` on the same input
removes the file. -/
theorem C4_sync_temp_file_left_behind :
    (SyncValidation envWriteFails World.fresh).files = ["fhir_payload_1.json"] ∧
    (SyncValidation envWriteFails World.fresh).calls =
      [Effect.createTemp (some "fhir_payload_1.json"), Effect.copy "fhir_payload_1.json",
        Effect.write "fhir_payload_1.json" (str "\x7b\x7d")] ∧
    (SyncValidation envWriteFails World.fresh).resp.status = 500 ∧
    (SyncValidation envWriteFails World.fresh).resp.body =
      str "Failed to write payload to file: no space left on device" ∧
    (SseValidation envWriteFails World.fresh).files = [] := by
  decide

/-- The five headers of lines 140-144 leave `Content-Type: text/event-stream`. -/
theorem contentType_after_headers (w : World) :
    getHeader "Content-Type"
      (setHeader "Access-Control-Allow-Origin" "*"
        (setHeader "Transfer-Encoding" "chunked"
          (setHeader "Connection" "keep-alive"
            (setHeader "Cache-Control" "no-cache"
              (setHeader "Content-Type" "text/event-stream" w))))) = some "text/event-stream" := by
  rw [getHeader_setHeader_other _ _ _ _ (by decide), getHeader_setHeader_other _ _ _ _ (by decide),
    getHeader_setHeader_other _ _ _ _ (by decide), getHeader_setHeader_other _ _ _ _ (by decide),
    getHeader_setHeader_same]

/-- The state in which `SseValidation` returns when the command cannot be started. -/
theorem SseValidation_start_failure (env : Env) (w : World) (reqBody : TestRequest)
    (name : String) (e : GoString)
    (hbind : env.bind = .ok reqBody) (hlen : reqBody.Payload.length ≠ 0)
    (htemp : env.createTemp = .ok name) (hwrite : env.write = none)
    (hout : env.stdoutPipe = none) (herr : env.stderrPipe = none) (hstart : env.start = some e) :
    SseValidation env w =
      osRemove name (cString 500 (str "Failed to start command: " ++ e)
        (call (Effect.start (CommandContext "java" (cmdArgs name reqBody.Args)))
          (call Effect.stderrPipe (call Effect.stdoutPipe
            (setHeader "Access-Control-Allow-Origin" "*"
              (setHeader "Transfer-Encoding" "chunked"
                (setHeader "Connection" "keep-alive"
                  (setHeader "Cache-Control" "no-cache"
                    (setHeader "Content-Type" "text/event-stream"
                      (call (Effect.close name) (call (Effect.write name reqBody.Payload)
                        (osCreateTemp name w))))))))))))  := by
  simp only [SseValidation, hbind, hlen, if_false, htemp, sseBody, hwrite, hout, herr, hstart]

/-- C8, as stated, fails in its last part: when the command cannot be started,
the response with status 500 carries `Content-Type: text/event-stream`, because
the handler sets the event-stream headers before it starts the command and
`c.String` keeps a content type that is set. -/
theorem C8_start_failure_keeps_event_stream_type :
    (SseValidation envStartFails World.fresh).resp.status = 500 ∧
    getHeader "Content-Type" (SseValidation envStartFails World.fresh) =
      some "text/event-stream" := by
  decide

/-- C8, amended: for a valid request whose payload is written and whose pipes
are open, if starting the command fails with error `e`, `SseValidation` answers
with status 500 and the body `Failed to start command: ` followed by `e`, writes
no event, and returns right after the failed start (the only call after it is
the removal of the temp file); the response keeps the header
`Content-Type: text/event-stream` set before the start. -/
theorem C8_start_failure_response (env : Env) (w : World) (reqBody : TestRequest)
    (name : String) (e : GoString)
    (hbind : env.bind = .ok reqBody) (hlen : reqBody.Payload.length ≠ 0)
    (htemp : env.createTemp = .ok name) (hwrite : env.write = none)
    (hout : env.stdoutPipe = none) (herr : env.stderrPipe = none) (hstart : env.start = some e) :
    (SseValidation env w).resp.status = 500 ∧
    (SseValidation env w).resp.body = w.resp.body ++ (str "Failed to start command: " ++ e) ∧
    (SseValidation env w).resp.events = w.resp.events ∧
    (SseValidation env w).calls =
      w.calls ++ [Effect.createTemp (some name), Effect.write name reqBody.Payload,
        Effect.close name, Effect.stdoutPipe, Effect.stderrPipe,
        Effect.start (["java", "-jar", "validator_cli.jar", name] ++ reqBody.Args),
        Effect.remove name] ∧
    getHeader "Content-Type" (SseValidation env w) = some "text/event-stream" := by
  rw [SseValidation_start_failure env w reqBody name e hbind hlen htemp hwrite hout herr hstart]
  refine ⟨?_, ?_, ?_, ?_, ?_⟩
  · rw [osRemove_resp, cString_status]
  · rw [osRemove_resp, cString_body]
    rfl
  · rw [osRemove_resp, cString_events]
    rfl
  · rw [osRemove_calls, cString_calls]
    simp [call_calls, setHeader_calls, osCreateTemp_calls, CommandContext, cmdArgs]
  · rw [getHeader_osRemove]
    apply cString_contentType
    rw [getHeader_call, getHeader_call, getHeader_call]
    exact contentType_after_headers _

/-- C8, amended, at a request for which the start fails with `exec: no command`. -/
theorem C8_start_failure_response_witness :
    (SseValidation envStartFails World.fresh).resp.status = 500 ∧
    (SseValidation envStartFails World.fresh).resp.body =
      str "Failed to start command: exec: no command" ∧
    (SseValidation envStartFails World.fresh).resp.events = [] ∧
    getHeader "Content-Type" (SseValidation envStartFails World.fresh) =
      some "text/event-stream" :=
  have h := C8_start_failure_response envStartFails World.fresh
    ⟨str "\x7b\x7d", ["-version", "4.0.1"]⟩ "fhir_payload_1.json" (str "exec: no command")
    rfl (by decide) rfl rfl rfl rfl rfl
  ⟨h.1, h.2.1.trans (by decide), h.2.2.1, h.2.2.2.2⟩

/-! ### Escape sequences at concrete texts -/

theorem isAnsiSeq_tail_no_esc {e t : GoString} (he : IsAnsiSeq e) (h : e = 0x1b :: t) :
    (0x1b : UInt8) ∉ t := by
  obtain ⟨ps, hps, rfl⟩ := he
  have ht : t = 0x5b :: (ps ++ [0x6d]) := (List.cons.inj h).2.symm
  subst ht
  intro hmem
  simp only [List.mem_cons, List.mem_append, List.mem_singleton, List.not_mem_nil, or_false] at hmem
  rcases hmem with h1 | h1 | h1
  · exact absurd h1 (by decide)
  · exact absurd (hps _ h1) (by decide)
  · exact absurd h1 (by decide)

/-- The sequence ESC `[` `3` `1` `m` (red). -/
theorem isAnsiSeq_red : IsAnsiSeq [0x1b, 0x5b, 0x33, 0x31, 0x6d] :=
  ⟨[0x33, 0x31], by decide, rfl⟩

/-- The sequence ESC `[` `0` `m` (reset). -/
theorem isAnsiSeq_reset : IsAnsiSeq [0x1b, 0x5b, 0x30, 0x6d] :=
  ⟨[0x30], by decide, rfl⟩

/-- C6 at `>` ESC `[31m` `hi` ESC `[0m` `!`. -/
theorem C6_sequences_removed_text_kept_witness :
    consoleOutputToPlainText
      ([0x3e] ++ ([[0x1b, 0x5b, 0x33, 0x31, 0x6d] ++ [0x68, 0x69],
        [0x1b, 0x5b, 0x30, 0x6d] ++ [0x21]] : List GoString).flatten) =
      [0x3e] ++ ([[0x68, 0x69], [0x21]] : List GoString).flatten :=
  C6_sequences_removed_text_kept [0x3e]
    [([0x1b, 0x5b, 0x33, 0x31, 0x6d], [0x68, 0x69]), ([0x1b, 0x5b, 0x30, 0x6d], [0x21])]
    (by decide)
    (by
      intro p hp
      simp only [List.mem_cons, List.mem_singleton, List.not_mem_nil, or_false] at hp
      rcases hp with rfl | rfl
      · exact ⟨isAnsiSeq_red, by decide⟩
      · exact ⟨isAnsiSeq_reset, by decide⟩)

/-! ### Interrupted escape sequences -/

/-- A sequence is not the start of a longer sequence. -/
theorem isAnsiSeq_append_eq {x y : GoString} (hx : IsAnsiSeq x) (hxy : IsAnsiSeq (x ++ y)) :
    y = [] := by
  have h1 := matchHere_ansi_seq hx y
  have h2 := matchHere_ansi_seq hxy []
  rw [List.append_nil, h1] at h2
  exact Option.some.inj h2

/-- A match that starts in front of an escape character ends in front of it. -/
theorem matchHere_ansi_esc {a : GoString} (ha : a ≠ []) (h : matchHere ansiRegex a = none)
    (b : GoString) : matchHere ansiRegex (a ++ 0x1b :: b) = none := by
  cases hm : matchHere ansiRegex (a ++ 0x1b :: b) with
  | none => rfl
  | some r =>
    exfalso
    obtain ⟨e, he, hsplit⟩ := matchHere_ansi_some hm
    rcases List.append_eq_append_iff.mp hsplit with ⟨a2, hea, hb⟩ | ⟨c2, hae, _⟩
    · cases a2 with
      | nil =>
        rw [List.append_nil] at hea
        have := matchHere_ansi_seq he []
        rw [List.append_nil, hea, h] at this
        exact absurd this (by simp)
      | cons d ds =>
        have hd : d = 0x1b := ((List.cons.inj hb).1).symm
        subst hd
        cases a with
        | nil => exact ha rfl
        | cons a0 a1 =>
          obtain ⟨t, ht⟩ := isAnsiSeq_head he
          have htail : t = a1 ++ 0x1b :: ds := by
            rw [ht, List.cons_append] at hea
            exact (List.cons.inj hea).2
          apply isAnsiSeq_tail_no_esc he ht
          rw [htail]
          simp
    · have := matchHere_ansi_seq he c2
      rw [← hae, h] at this
      exact absurd this (by simp)

/-- The text in front of an escape character is sanitized on its own. -/
theorem consoleOutputToPlainText_append_esc (n : Nat) : ∀ pre u : GoString, pre.length ≤ n →
    consoleOutputToPlainText (pre ++ 0x1b :: u) =
      consoleOutputToPlainText pre ++ consoleOutputToPlainText (0x1b :: u) := by
  induction n with
  | zero =>
    intro pre u hn
    have hp : pre = [] := List.length_eq_zero.mp (Nat.le_zero.mp hn)
    subst hp
    rfl
  | succ n ih =>
    intro pre u hn
    cases pre with
    | nil => rfl
    | cons c cs =>
      simp only [List.length_cons, Nat.add_le_add_iff_right] at hn
      cases hm : matchHere ansiRegex (c :: cs) with
      | none =>
        have hm2 := matchHere_ansi_esc (List.cons_ne_nil c cs) hm u
        rw [List.cons_append] at hm2 ⊢
        rw [consoleOutputToPlainText_cons_none hm2, consoleOutputToPlainText_cons_none hm,
          ih cs u hn, List.cons_append]
      | some rest =>
        obtain ⟨e, he, hsplit⟩ := matchHere_ansi_some hm
        have hlen := matchHere_ansi_length hm
        simp only [List.length_cons] at hlen
        rw [consoleOutputToPlainText_match hm, hsplit, List.append_assoc,
          consoleOutputToPlainText_seq_append he]
        exact ih rest u (by omega)

/-- Sanitizing a spliced text removes the inserted sequences and keeps the rest. -/
theorem consoleOutputToPlainText_spliced {e t : GoString} (h : Spliced e t) :
    (0x1b : UInt8) ∉ e → ∀ post : GoString,
      consoleOutputToPlainText (t ++ post) = e ++ consoleOutputToPlainText post := by
  induction h with
  | nil => intro _ post; rfl
  | keep c _ ih =>
    intro hesc post
    have hc : c ≠ 0x1b := fun hc => hesc (hc ▸ List.mem_cons_self _ _)
    rw [List.cons_append, consoleOutputToPlainText_cons_none (matchHere_ansi_of_ne hc _),
      ih (fun hmem => hesc (List.mem_cons_of_mem c hmem)) post, List.cons_append]
  | ins c hx _ ih =>
    intro hesc post
    rw [List.append_assoc, consoleOutputToPlainText_seq_append hx]
    exact ih hesc post

/-- A spliced text that differs from the original has a first inserted sequence,
in front of a byte of the original. -/
theorem spliced_first_insertion {e t : GoString} (h : Spliced e t) (hne : t ≠ e) :
    ∃ e1 e2 x t2 : GoString, e = e1 ++ e2 ∧ e2 ≠ [] ∧ IsAnsiSeq x ∧ t = e1 ++ (x ++ t2) := by
  induction h with
  | nil => exact absurd rfl hne
  | keep c _ ih =>
    obtain ⟨e1, e2, x, t2, he, he2, hx, ht⟩ := ih (fun heq => hne (by rw [heq]))
    exact ⟨c :: e1, e2, x, t2, by rw [he, List.cons_append], he2, hx,
      by rw [ht, List.cons_append]⟩
  | ins c hx _ _ => exact ⟨[], _, _, _, rfl, List.cons_ne_nil _ _, hx, rfl⟩

/-- No match starts at the escape character of an interrupted sequence. -/
theorem matchHere_ansi_interrupted {e1 e2 : GoString} (he : IsAnsiSeq (0x1b :: (e1 ++ e2)))
    (he2 : e2 ≠ []) (z : GoString) :
    matchHere ansiRegex (0x1b :: (e1 ++ 0x1b :: z)) = none := by
  cases hm : matchHere ansiRegex (0x1b :: (e1 ++ 0x1b :: z)) with
  | none => rfl
  | some r =>
    exfalso
    obtain ⟨x, hx, hsplit⟩ := matchHere_ansi_some hm
    have hsplit2 : (0x1b :: e1) ++ 0x1b :: z = x ++ r := by rw [← hsplit, List.cons_append]
    rcases List.append_eq_append_iff.mp hsplit2 with ⟨a2, hxa, hb⟩ | ⟨c2, hax, _⟩
    · cases a2 with
      | nil =>
        rw [List.append_nil] at hxa
        apply he2
        apply isAnsiSeq_append_eq hx
        rw [hxa, List.cons_append]
        exact he
      | cons d ds =>
        have hd : d = 0x1b := ((List.cons.inj hb).1).symm
        subst hd
        apply isAnsiSeq_tail_no_esc hx (t := e1 ++ 0x1b :: ds)
        · rw [hxa, List.cons_append]
        · simp
    · have hnil : c2 ++ e2 = [] := by
        apply isAnsiSeq_append_eq hx
        rw [← List.append_assoc, ← hax, List.cons_append]
        exact he
      exact he2 (List.append_eq_nil.mp hnil).2

/-- An interrupted sequence of the input leaves an escape sequence in the output. -/
theorem containsAnsiSeq_of_interrupted {s : GoString} (h : Interrupted s) :
    ContainsAnsiSeq (consoleOutputToPlainText s) := by
  obtain ⟨pre, e, t, post, he, hsp, hne, rfl⟩ := h
  have hesc : (0x1b : UInt8) ∉ e := isAnsiSeq_tail_no_esc he rfl
  obtain ⟨e1, e2, x, t2, he12, he2, hx, ht⟩ := spliced_first_insertion hsp hne
  obtain ⟨z, hz⟩ := isAnsiSeq_head hx
  have hnone : matchHere ansiRegex (0x1b :: (t ++ post)) = none := by
    have := matchHere_ansi_interrupted (he12 ▸ he) he2 (z ++ t2 ++ post)
    rw [ht, hz]
    simpa using this
  rw [consoleOutputToPlainText_append_esc pre.length pre _ (Nat.le_refl _),
    consoleOutputToPlainText_cons_none hnone, consoleOutputToPlainText_spliced hsp hesc post]
  exact ⟨consoleOutputToPlainText pre, 0x1b :: e, consoleOutputToPlainText post, he, by simp⟩

theorem interrupted_append_left {s : GoString} (p : GoString) (h : Interrupted s) :
    Interrupted (p ++ s) := by
  obtain ⟨pre, e, t, post, he, hsp, hne, rfl⟩ := h
  exact ⟨p ++ pre, e, t, post, he, hsp, hne, by rw [List.append_assoc]⟩

/-- An output that starts with text without escape characters comes from an
input that starts with that text, spliced. -/
theorem spliced_of_consoleOutputToPlainText (n : Nat) : ∀ cs e b : GoString, cs.length ≤ n →
    (0x1b : UInt8) ∉ e → consoleOutputToPlainText cs = e ++ b →
    ∃ t post : GoString, cs = t ++ post ∧ Spliced e t := by
  induction n with
  | zero =>
    intro cs e b hn _ hout
    have hcs : cs = [] := List.length_eq_zero.mp (Nat.le_zero.mp hn)
    subst hcs
    rw [consoleOutputToPlainText_nil] at hout
    have he : e = [] := (List.append_eq_nil.mp hout.symm).1
    subst he
    exact ⟨[], [], rfl, Spliced.nil⟩
  | succ n ih =>
    intro cs e b hn hesc hout
    cases e with
    | nil => exact ⟨[], cs, rfl, Spliced.nil⟩
    | cons d e2 =>
      cases cs with
      | nil =>
        rw [consoleOutputToPlainText_nil] at hout
        exact absurd hout (by simp)
      | cons c cs2 =>
        simp only [List.length_cons, Nat.add_le_add_iff_right] at hn
        cases hm : matchHere ansiRegex (c :: cs2) with
        | none =>
          rw [consoleOutputToPlainText_cons_none hm, List.cons_append] at hout
          obtain ⟨hcd, hrest⟩ := List.cons.inj hout
          obtain ⟨t, post, hcs, hsp⟩ :=
            ih cs2 e2 b hn (fun hmem => hesc (List.mem_cons_of_mem d hmem)) hrest
          exact ⟨d :: t, post, by rw [hcd, hcs, List.cons_append], Spliced.keep d hsp⟩
        | some rest =>
          obtain ⟨x, hx, hsplit⟩ := matchHere_ansi_some hm
          have hlen := matchHere_ansi_length hm
          simp only [List.length_cons] at hlen
          rw [consoleOutputToPlainText_match hm] at hout
          obtain ⟨t, post, hrest, hsp⟩ := ih rest (d :: e2) b (by omega) hesc hout
          exact ⟨x ++ t, post, by rw [hsplit, hrest, List.append_assoc], Spliced.ins d hx hsp⟩

/-- An escape sequence in the output comes from an interrupted sequence of the input. -/
theorem interrupted_of_consoleOutputToPlainText (n : Nat) : ∀ s a e b : GoString, s.length ≤ n →
    IsAnsiSeq e → consoleOutputToPlainText s = a ++ (e ++ b) → Interrupted s := by
  induction n with
  | zero =>
    intro s a e b hn he hout
    have hs : s = [] := List.length_eq_zero.mp (Nat.le_zero.mp hn)
    subst hs
    rw [consoleOutputToPlainText_nil] at hout
    have hlen := isAnsiSeq_length he
    have := congrArg List.length hout
    simp only [List.length_nil, List.length_append] at this
    omega
  | succ n ih =>
    intro s a e b hn he hout
    cases s with
    | nil =>
      rw [consoleOutputToPlainText_nil] at hout
      have hlen := isAnsiSeq_length he
      have := congrArg List.length hout
      simp only [List.length_nil, List.length_append] at this
      omega
    | cons c cs =>
      simp only [List.length_cons, Nat.add_le_add_iff_right] at hn
      cases hm : matchHere ansiRegex (c :: cs) with
      | some rest =>
        obtain ⟨x, _, hsplit⟩ := matchHere_ansi_some hm
        have hlen := matchHere_ansi_length hm
        simp only [List.length_cons] at hlen
        rw [consoleOutputToPlainText_match hm] at hout
        rw [hsplit]
        exact interrupted_append_left x (ih rest a e b (by omega) he hout)
      | none =>
        rw [consoleOutputToPlainText_cons_none hm] at hout
        cases a with
        | nil =>
          obtain ⟨e2, he2⟩ := isAnsiSeq_head he
          subst he2
          rw [List.nil_append, List.cons_append] at hout
          obtain ⟨hc, hrest⟩ := List.cons.inj hout
          subst hc
          obtain ⟨t, post, hcs, hsp⟩ := spliced_of_consoleOutputToPlainText cs.length cs e2 b
            (Nat.le_refl _) (isAnsiSeq_tail_no_esc he rfl) hrest
          have hne : t ≠ e2 := by
            intro heq
            have := matchHere_ansi_seq he post
            rw [List.cons_append, ← heq, ← hcs, hm] at this
            exact absurd this (by simp)
          exact ⟨[], e2, t, post, he, hsp, hne, by rw [hcs, List.nil_append]⟩
        | cons a0 a1 =>
          rw [List.cons_append] at hout
          obtain ⟨_, hrest⟩ := List.cons.inj hout
          exact interrupted_append_left [c] (ih cs a1 e b hn he hrest)

/-- The output has an escape sequence exactly when the input has an interrupted one. -/
theorem containsAnsiSeq_consoleOutputToPlainText_iff (s : GoString) :
    ContainsAnsiSeq (consoleOutputToPlainText s) ↔ Interrupted s := by
  constructor
  · rintro ⟨a, e, b, he, hout⟩
    rw [List.append_assoc] at hout
    exact interrupted_of_consoleOutputToPlainText s.length s a e b (Nat.le_refl _) he hout
  · exact containsAnsiSeq_of_interrupted

/-! ### Texts that the sanitizer leaves as they are -/

theorem consoleOutputToPlainText_length_le (n : Nat) : ∀ s : GoString, s.length ≤ n →
    (consoleOutputToPlainText s).length ≤ s.length := by
  induction n with
  | zero =>
    intro s hn
    have hs : s = [] := List.length_eq_zero.mp (Nat.le_zero.mp hn)
    subst hs
    exact Nat.le_refl _
  | succ n ih =>
    intro s hn
    cases s with
    | nil => exact Nat.le_refl _
    | cons c cs =>
      simp only [List.length_cons, Nat.add_le_add_iff_right] at hn
      cases hm : matchHere ansiRegex (c :: cs) with
      | none =>
        rw [consoleOutputToPlainText_cons_none hm]
        simp only [List.length_cons, Nat.add_le_add_iff_right]
        exact ih cs hn
      | some rest =>
        have hlen := matchHere_ansi_length hm
        simp only [List.length_cons] at hlen ⊢
        rw [consoleOutputToPlainText_match hm]
        have := ih rest (by omega)
        omega

/-- A text with a match at its head is changed by the sanitizer. -/
theorem consoleOutputToPlainText_ne_of_match {s rest : GoString}
    (h : matchHere ansiRegex s = some rest) : consoleOutputToPlainText s ≠ s := by
  intro heq
  have hlen := matchHere_ansi_length h
  have hle := consoleOutputToPlainText_length_le rest.length rest (Nat.le_refl _)
  rw [← consoleOutputToPlainText_match h, heq] at hle
  omega

/-- The sanitizer returns a text unchanged exactly when the text has no escape sequence. -/
theorem consoleOutputToPlainText_eq_self_iff (t : GoString) :
    consoleOutputToPlainText t = t ↔ ¬ ContainsAnsiSeq t := by
  constructor
  · rintro heq ⟨pre, e, post, he, hsplit⟩
    subst hsplit
    induction pre with
    | nil =>
      rw [List.nil_append] at heq
      exact consoleOutputToPlainText_ne_of_match (matchHere_ansi_seq he post) heq
    | cons c pre ih =>
      cases hm : matchHere ansiRegex (c :: pre ++ e ++ post) with
      | some rest => exact consoleOutputToPlainText_ne_of_match hm heq
      | none =>
        simp only [List.cons_append] at hm heq
        rw [consoleOutputToPlainText_cons_none hm] at heq
        exact ih (List.cons.inj heq).2
  · intro hno
    induction t with
    | nil => rfl
    | cons c cs ih =>
      cases hm : matchHere ansiRegex (c :: cs) with
      | some rest =>
        obtain ⟨e, he, hsplit⟩ := matchHere_ansi_some hm
        exact absurd ⟨[], e, rest, he, by rw [hsplit, List.nil_append]⟩ hno
      | none =>
        rw [consoleOutputToPlainText_cons_none hm, ih]
        rintro ⟨pre, e, post, he, hsplit⟩
        exact hno ⟨c :: pre, e, post, he, by rw [hsplit]; rfl⟩

/-! ### Sufficient conditions -/

/-- An interrupted sequence has at least two escape characters. -/
theorem count_esc_of_interrupted {s : GoString} (h : Interrupted s) :
    2 ≤ List.count (0x1b : UInt8) s := by
  obtain ⟨pre, e, t, post, _, hsp, hne, rfl⟩ := h
  obtain ⟨e1, e2, x, t2, _, _, hx, ht⟩ := spliced_first_insertion hsp hne
  obtain ⟨z, hz⟩ := isAnsiSeq_head hx
  subst ht hz
  simp only [List.count_append, List.count_cons_self, List.cons_append]
  omega

/-- A text in which no escape character comes directly after an incomplete
start of a sequence has no interrupted sequence. -/
theorem not_interrupted_of_noEscAfterPrefix {s : GoString} (h : NoEscAfterPrefix s) :
    ¬ Interrupted s := by
  rintro ⟨pre, e, t, post, he, hsp, hne, hs⟩
  obtain ⟨e1, e2, x, t2, he12, he2, hx, ht⟩ := spliced_first_insertion hsp hne
  obtain ⟨z, hz⟩ := isAnsiSeq_head hx
  obtain ⟨ps, hps, hseq⟩ := he
  have hform : e1 ++ e2 = 0x5b :: (ps ++ [0x6d]) := by
    rw [← he12]
    exact (List.cons.inj hseq).2
  subst ht hz
  cases e1 with
  | nil =>
    exact (h pre [] (z ++ t2 ++ post) (fun _ hp => absurd hp (List.not_mem_nil _))).1
      (by rw [hs]; simp)
  | cons c1 e1 =>
    rw [List.cons_append] at hform
    obtain ⟨hc1, htail⟩ := List.cons.inj hform
    subst hc1
    have hparams : ∀ p ∈ e1, isParamByte p = true := by
      rcases List.append_eq_append_iff.mp htail with ⟨a2, hpsa, _⟩ | ⟨c2, he1c, hm⟩
      · intro p hp
        exact hps p (by rw [hpsa]; exact List.mem_append_left _ hp)
      · have hc2 : c2 = [] := by
          cases c2 with
          | nil => rfl
          | cons d ds =>
            rw [List.cons_append] at hm
            have hnil := (List.cons.inj hm).2
            exact absurd (List.append_eq_nil.mp hnil.symm).2 he2
        rw [hc2, List.append_nil] at he1c
        rw [he1c]
        exact hps
    exact (h pre e1 (z ++ t2 ++ post) hparams).2 (by rw [hs]; simp)

/-! ### Claims C5 and C7, amended -/

/-- C5, amended: the output of `consoleOutputToPlainText` has a substring that
is an escape sequence exactly when the input has an interrupted escape sequence
(a sequence with complete sequences inserted between its bytes, as in
ESC `[` ESC `[` `m` `m`).  For every other input, among them every input with a
single escape character such as ESC `[2K` and every input in which no escape
character directly follows an incomplete start of a sequence, the output has
no substring that matches the pattern. -/
theorem C5_output_sequence_iff_interrupted (s : GoString) :
    (ContainsAnsiSeq (consoleOutputToPlainText s) ↔ Interrupted s) ∧
    (NoEscAfterPrefix s → ¬ ContainsAnsiSeq (consoleOutputToPlainText s)) :=
  ⟨containsAnsiSeq_consoleOutputToPlainText_iff s,
   fun h hc => not_interrupted_of_noEscAfterPrefix h
     ((containsAnsiSeq_consoleOutputToPlainText_iff s).mp hc)⟩

/-- C7, amended: sanitizing twice gives the same text as sanitizing once
exactly when the input has no interrupted escape sequence; in particular it
does for every input in which no escape character directly follows an
incomplete start of a sequence. -/
theorem C7_idempotent_iff_not_interrupted (s : GoString) :
    (consoleOutputToPlainText (consoleOutputToPlainText s) = consoleOutputToPlainText s ↔
      ¬ Interrupted s) ∧
    (NoEscAfterPrefix s →
      consoleOutputToPlainText (consoleOutputToPlainText s) = consoleOutputToPlainText s) :=
  have hiff : consoleOutputToPlainText (consoleOutputToPlainText s) = consoleOutputToPlainText s ↔
      ¬ Interrupted s :=
    (consoleOutputToPlainText_eq_self_iff _).trans
      (not_congr (containsAnsiSeq_consoleOutputToPlainText_iff s))
  ⟨hiff, fun h => hiff.mpr (not_interrupted_of_noEscAfterPrefix h)⟩

/-! ### The amended claims at concrete texts -/

/-- A text with at most one escape character has no escape character after an
incomplete start of a sequence. -/
theorem noEscAfterPrefix_of_count {s : GoString} (h : List.count (0x1b : UInt8) s ≤ 1) :
    NoEscAfterPrefix s := by
  intro pre ps post _
  constructor
  · intro hs
    subst hs
    simp only [List.count_append, List.count_cons_self] at h
    omega
  · intro hs
    subst hs
    simp only [List.count_append, List.count_cons_self, List.count_cons] at h
    omega

/-- The text ESC `[` ESC `[` `m` `m` has an interrupted sequence: ESC `[` `m` with
ESC `[` `m` inserted in front of its `m`. -/
theorem interrupted_example : Interrupted [0x1b, 0x5b, 0x1b, 0x5b, 0x6d, 0x6d] :=
  ⟨[], [0x5b, 0x6d], [0x5b, 0x1b, 0x5b, 0x6d, 0x6d], [],
    ⟨[], fun _ h => absurd h (List.not_mem_nil _), rfl⟩,
    Spliced.keep 0x5b (Spliced.ins (x := [0x1b, 0x5b, 0x6d]) 0x6d
      ⟨[], fun _ h => absurd h (List.not_mem_nil _), rfl⟩ (Spliced.keep 0x6d Spliced.nil)),
    by decide, rfl⟩

/-- The text ESC `[31m` `hi` ESC `[0m` `!` has no interrupted sequence. -/
theorem not_interrupted_example :
    ¬ Interrupted [0x1b, 0x5b, 0x33, 0x31, 0x6d, 0x68, 0x69, 0x1b, 0x5b, 0x30, 0x6d, 0x21] :=
  fun h => absurd (containsAnsiSeq_esc (containsAnsiSeq_of_interrupted h)) (by decide)

/-- C5, amended, at three texts: ESC `[2K` `hi` (an escape sequence that is not a
colour code) is returned as it is and has no match; ESC `[31m` `hi` ESC `[0m` `!`
gives `hi!`, without a match; ESC `[` ESC `[` `m` `m` gives a text with a match. -/
theorem C5_output_sequence_iff_interrupted_witness :
    (NoEscAfterPrefix [0x1b, 0x5b, 0x32, 0x4b, 0x68, 0x69] ∧
      consoleOutputToPlainText [0x1b, 0x5b, 0x32, 0x4b, 0x68, 0x69] =
        [0x1b, 0x5b, 0x32, 0x4b, 0x68, 0x69] ∧
      ¬ ContainsAnsiSeq (consoleOutputToPlainText [0x1b, 0x5b, 0x32, 0x4b, 0x68, 0x69])) ∧
    ¬ ContainsAnsiSeq (consoleOutputToPlainText
      [0x1b, 0x5b, 0x33, 0x31, 0x6d, 0x68, 0x69, 0x1b, 0x5b, 0x30, 0x6d, 0x21]) ∧
    (Interrupted [0x1b, 0x5b, 0x1b, 0x5b, 0x6d, 0x6d] ∧
      ContainsAnsiSeq (consoleOutputToPlainText [0x1b, 0x5b, 0x1b, 0x5b, 0x6d, 0x6d])) :=
  ⟨⟨noEscAfterPrefix_of_count (by decide), by decide,
      (C5_output_sequence_iff_interrupted _).2 (noEscAfterPrefix_of_count (by decide))⟩,
    fun h => not_interrupted_example ((C5_output_sequence_iff_interrupted _).1.mp h),
    ⟨interrupted_example, (C5_output_sequence_iff_interrupted _).1.mpr interrupted_example⟩⟩

/-- C7, amended, at two texts: ESC `[2K` `hi` and ESC `[31m` `hi` ESC `[0m` `!`. -/
theorem C7_idempotent_iff_not_interrupted_witness :
    (NoEscAfterPrefix [0x1b, 0x5b, 0x32, 0x4b, 0x68, 0x69] ∧
      consoleOutputToPlainText (consoleOutputToPlainText [0x1b, 0x5b, 0x32, 0x4b, 0x68, 0x69]) =
        consoleOutputToPlainText [0x1b, 0x5b, 0x32, 0x4b, 0x68, 0x69]) ∧
    consoleOutputToPlainText (consoleOutputToPlainText
      [0x1b, 0x5b, 0x33, 0x31, 0x6d, 0x68, 0x69, 0x1b, 0x5b, 0x30, 0x6d, 0x21]) =
      consoleOutputToPlainText
        [0x1b, 0x5b, 0x33, 0x31, 0x6d, 0x68, 0x69, 0x1b, 0x5b, 0x30, 0x6d, 0x21] :=
  ⟨⟨noEscAfterPrefix_of_count (by decide),
      (C7_idempotent_iff_not_interrupted _).2 (noEscAfterPrefix_of_count (by decide))⟩,
    (C7_idempotent_iff_not_interrupted _).1.mpr not_interrupted_example⟩

end Handler
